import Mathlib

/-!
Verification of the telegraphy typed-RPC core (src/index.ts, src/src/http.ts).

The embedding models JSON-transportable runtime values as the inductive
type `Value`, the platform JSON serializer (`JSON.stringify` / `JSON.parse`
as used by `makeRoute` and by the test wiring cable) as a concrete
stringifier and parser over `Value`, sury schemas as opaque validation
capabilities (`Schema := Value → Except String Value`, the spec's
"validate(value) → value | fails"), promise rejection as `Except Err`,
and the effectful collaborators (the Cable, the HTTP fetch, the
implementation factory) with explicit invocation traces so that
"the Cable is never invoked" / "the factory runs exactly once per call"
are statable.  Numeric values are modelled as integers; control-character
escaping inside JSON strings is elided (only the quote and the backslash
are escaped), which is the fragment exercised by the repository.
-/

namespace Telegraphy

/-- A JSON-transportable runtime value: the data that crosses the
Remote-Proxy / Cable / Router boundary. Deep equality is structural
equality of this type. -/
inductive Value where
  | null : Value
  | bool : Bool → Value
  | num : Int → Value
  | str : String → Value
  | arr : List Value → Value
  | obj : List (String × Value) → Value

/-! ### JSON serialization (JSON.stringify / JSON.parse) -/

/-- The character for a single decimal digit. -/
def digChar (d : Nat) : Char := Char.ofNat (48 + d)

/-- The decimal digit denoted by a character. -/
def charDig (c : Char) : Nat := c.toNat - 48

/-- Little-endian decimal digit characters of a number; the fuel bounds
the recursion and any fuel of at least the number itself is enough. -/
def natCharsAux : Nat → Nat → List Char
  | 0, _ => []
  | _ + 1, 0 => []
  | fuel + 1, n => digChar (n % 10) :: natCharsAux fuel (n / 10)

/-- Decimal digits of a natural number, most significant first. -/
def natChars (n : Nat) : List Char :=
  if n = 0 then ['0'] else (natCharsAux n n).reverse

/-- Decimal rendering of an integer. -/
def numChars (n : Int) : List Char :=
  if n < 0 then '-' :: natChars n.natAbs else natChars n.toNat

/-- JSON string escaping of one character (quote and backslash). -/
def escChar (c : Char) : List Char :=
  if c = '"' ∨ c = '\\' then ['\\', c] else [c]

/-- JSON string escaping of a character sequence. -/
def escChars : List Char → List Char
  | [] => []
  | c :: cs => escChar c ++ escChars cs

mutual
/-- Characters of the JSON rendering of a value (JSON.stringify). -/
def strV : Value → List Char
  | .null => 'n' :: ['u', 'l', 'l']
  | .bool true => 't' :: ['r', 'u', 'e']
  | .bool false => 'f' :: ['a', 'l', 's', 'e']
  | .num n => numChars n
  | .str s => '"' :: escChars s.data ++ ['"']
  | .arr vs => '[' :: strElems vs ++ [']']
  | .obj fs => '\x7b' :: strFields fs ++ ['\x7d']
/-- Comma-separated renderings of array elements. -/
def strElems : List Value → List Char
  | [] => []
  | [v] => strV v
  | v :: vs => strV v ++ ',' :: strElems vs
/-- Comma-separated renderings of object fields, each field a quoted
escaped key, a colon and the value. -/
def strFields : List (String × Value) → List Char
  | [] => []
  | [(k, v)] => '"' :: escChars k.data ++ '"' :: ':' :: strV v
  | (k, v) :: fs =>
    ('"' :: escChars k.data ++ '"' :: ':' :: strV v) ++ ',' :: strFields fs
end

/-- Greedy decimal-number parser: digits, then the rest. -/
def pNat (cs : List Char) : Option (Nat × List Char) :=
  match cs.takeWhile Char.isDigit with
  | [] => none
  | d :: ds =>
    some (Nat.ofDigits 10 (((d :: ds).map charDig).reverse),
      cs.dropWhile Char.isDigit)

/-- JSON string-body parser: consumes up to the closing quote,
undoing the escaping. -/
def pStrAux (l : List Char) : Option (List Char × List Char) :=
  match l with
  | [] => none
  | c :: cs =>
    if c = '\\' then
      match cs with
      | c2 :: cs2 => (pStrAux cs2).map fun p => (c2 :: p.1, p.2)
      | [] => none
    else if c = '"' then some ([], cs)
    else (pStrAux cs).map fun p => (c :: p.1, p.2)
termination_by structural l

/-- JSON string parser (after the opening quote). -/
def pStr (cs : List Char) : Option (String × List Char) :=
  (pStrAux cs).map fun p => (String.mk p.1, p.2)

mutual
/-- Fueled JSON value parser (JSON.parse). -/
def pV : Nat → List Char → Option (Value × List Char)
  | 0, _ => none
  | fuel + 1, cs =>
    match cs with
    | [] => none
    | c :: rest =>
      if c = 'n' then
        match rest with
        | 'u' :: 'l' :: 'l' :: r => some (.null, r)
        | _ => none
      else if c = 't' then
        match rest with
        | 'r' :: 'u' :: 'e' :: r => some (.bool true, r)
        | _ => none
      else if c = 'f' then
        match rest with
        | 'a' :: 'l' :: 's' :: 'e' :: r => some (.bool false, r)
        | _ => none
      else if c = '"' then
        (pStr rest).map fun p => (.str p.1, p.2)
      else if c = '[' then
        if rest.head? = some ']' then some (.arr [], rest.tail)
        else (pElems fuel rest).map fun p => (.arr p.1, p.2)
      else if c = '\x7b' then
        if rest.head? = some '\x7d' then some (.obj [], rest.tail)
        else (pFields fuel rest).map fun p => (.obj p.1, p.2)
      else if c = '-' then
        match pNat rest with
        | some (n, r) => some (.num (-(n : Int)), r)
        | none => none
      else if c.isDigit then
        (pNat (c :: rest)).map fun p => (.num ((p.1 : Int)), p.2)
      else none
/-- Fueled parser for a non-empty comma-separated element list,
consuming the closing bracket. -/
def pElems : Nat → List Char → Option (List Value × List Char)
  | 0, _ => none
  | fuel + 1, cs =>
    match pV fuel cs with
    | some (v, ',' :: rest2) => (pElems fuel rest2).map fun p => (v :: p.1, p.2)
    | some (v, ']' :: rest2) => some ([v], rest2)
    | _ => none
/-- Fueled parser for a non-empty field list, consuming the
closing brace. -/
def pFields : Nat → List Char → Option (List (String × Value) × List Char)
  | 0, _ => none
  | fuel + 1, cs =>
    match cs with
    | '"' :: cs1 =>
      match pStr cs1 with
      | some (k, ':' :: cs2) =>
        match pV fuel cs2 with
        | some (v, ',' :: cs3) =>
          (pFields fuel cs3).map fun p => ((k, v) :: p.1, p.2)
        | some (v, '\x7d' :: cs3) => some ([(k, v)], cs3)
        | _ => none
      | _ => none
    | _ => none
end

/-- JSON.stringify over the value model. -/
def JSONstringify (v : Value) : String := String.mk (strV v)

/-- JSON.parse over the value model: succeeds only when the whole
text is consumed. -/
def JSONparse (s : String) : Option Value :=
  match pV (s.data.length + 1) s.data with
  | some (v, []) => some v
  | _ => none

/-- Head of a character list is not a decimal digit (trivially true of
the empty list); the delimiter condition under which a serialized number
can be re-parsed unambiguously. -/
def headNotDigit : List Char → Prop
  | [] => True
  | c :: _ => c.isDigit = false

/-! ### The dispatch core (src/index.ts) -/

/-- A failure surfaced through the promise-rejection channel.
`validation` is the error a sury `S.parseOrThrow` raises; `thrown` is a
plain `new Error(msg)`; `typeError` is the TypeError raised by
destructuring `undefined`. -/
inductive Err where
  | validation : String → Err
  | thrown : String → Err
  | typeError : String → Err
deriving DecidableEq

/-- Opaque schema capability: validates a value, returning the validated
value or a descriptive failure (the spec's "validate(value) → value or
fails"). -/
def Schema : Type := Value → Except String Value

/-- Models `S.parseOrThrow(value, schema)`: runs the schema, raising its failure
as a validation error. -/
def parseOrThrow (v : Value) (s : Schema) : Except Err Value :=
  match s v with
  | .ok r => .ok r
  | .error msg => .error (.validation msg)

/-- A value validates against a schema when the schema accepts it and
returns it unchanged. -/
def Validates (s : Schema) (v : Value) : Prop := s v = .ok v

/-- Models `Callable<I, O>`: one method's input/output schema pair. -/
structure Callable where
  input : Schema
  output : Schema

/-- The partially applied `transform(input)` builder; its `to` member
completes the pair. -/
structure TransformBuilder where
  «to» : Schema → Callable

/-- Models `transform(input).to(output)`: two-step builder of a Callable. -/
def transform (input : Schema) : TransformBuilder :=
  ⟨fun output => ⟨input, output⟩⟩

/-- A Feature value: a name plus the method-name → Callable mapping
(the instantiation of the source's generic `feature` at the RPC
method-schema shape). -/
structure FeatureDef where
  name : String
  schema : List (String × Callable)

/-- Models `feature(name, schema)`: pure construction, no validation. -/
def feature (name : String) (schema : List (String × Callable)) : FeatureDef :=
  ⟨name, schema⟩

/-- Models `Cable`: client-side transport capability
`(feature, method, input) → Promise<unknown>`. -/
def Cable : Type := String → String → Value → Except Err Value

/-- One recorded Cable invocation: the argument triple it was called
with. -/
structure CableCall where
  feature : String
  method : String
  input : Value

/-- Models `makeRemote(feature, cable)`: the Remote Proxy. Property access on
the JS Proxy yields a method function for every name (modelled by
totality in the method-name argument); the returned computation is the
body of that synthesized async function, paired with the trace of Cable
invocations it performs. Mirrors src/index.ts lines 80-97: destructure
the Callable (a TypeError on an undeclared name), validate the argument,
invoke the cable once, validate the raw result. -/
def makeRemote (F : FeatureDef) (cable : Cable) :
    String → Value → Except Err Value × List CableCall :=
  fun method arg =>
    match F.schema.lookup method with
    | none =>
      (.error (.typeError "Cannot destructure property input of undefined"), [])
    | some callable =>
      match parseOrThrow arg callable.input with
      | .error e => (.error e, [])
      | .ok parsedInput =>
        match cable F.name method parsedInput with
        | .error e => (.error e, [⟨F.name, method, parsedInput⟩])
        | .ok result =>
          (parseOrThrow result callable.output, [⟨F.name, method, parsedInput⟩])

/-- A server-side implementation object: the method-name → async-method
mapping an implementation factory returns. -/
def Impl : Type := List (String × (Value → Except Err Value))

/-- Models `Route<Ctx>`: the server binding of a Feature. `call` resolves to
the serialized output text; the second component counts the
implementation-factory invocations performed by that call. -/
structure Route (Ctx : Type) where
  call : Ctx → String → Value → Except Err String × Nat

/-- Models `makeRoute(feature, implFn)`. Mirrors src/index.ts lines 104-124:
look the method up in the schema (Not Found on a miss), validate the
argument, construct the implementation via the factory, look the method
up on it (Not Found on a miss), run it, validate its result, and return
the JSON text of the validated output. -/
def makeRoute {Ctx : Type} (F : FeatureDef) (implFn : Ctx → Impl) : Route Ctx :=
  ⟨fun ctx method arg =>
    match F.schema.lookup method with
    | none => (.error (.thrown ("Method " ++ method ++ " not found")), 0)
    | some callable =>
      match parseOrThrow arg callable.input with
      | .error e => (.error e, 0)
      | .ok parsedInput =>
        match (implFn ctx).lookup method with
        | none =>
          (.error (.thrown ("Method implementation for " ++ F.name ++ "."
            ++ method ++ " not found")), 1)
        | some fn =>
          match fn parsedInput with
          | .error e => (.error e, 1)
          | .ok result =>
            match parseOrThrow result callable.output with
            | .error e => (.error e, 1)
            | .ok validated => (.ok (JSONstringify validated), 1)⟩

/-- Models `S.parseOrThrow(payload, cableSchema)` followed by the destructuring
`const (feature, method, input) = ...`: the fixed Envelope Schema
`(feature: string, method: string, input: unknown)`. -/
def parseCableInput (payload : Value) : Except Err (String × String × Value) :=
  match payload with
  | .obj fields =>
    match fields.lookup "feature", fields.lookup "method",
        fields.lookup "input" with
    | some (.str f), some (.str m), some inp => .ok (f, m, inp)
    | _, _, _ =>
      .error (.validation "Failed parsing: expected envelope with feature, method and input fields")
  | _ => .error (.validation "Failed parsing: expected object")

/-- Models `makeRouter(routes)`. Mirrors src/index.ts lines 126-135: validate
the envelope, look the feature up (Not Found on a miss), delegate to the
Route. -/
def makeRouter {Ctx : Type} (routes : List (String × Route Ctx)) :
    Ctx → Value → Except Err String × Nat :=
  fun ctx payload =>
    match parseCableInput payload with
    | .error e => (.error e, 0)
    | .ok (f, m, inp) =>
      match routes.lookup f with
      | none => (.error (.thrown ("Feature " ++ f ++ " not found")), 0)
      | some route => route.call ctx m inp

/-- The test-suite wiring of a Cable directly to a Router: package the
arguments as an envelope object, run the Router, and JSON-parse the
textual result (a parse failure is the SyntaxError JSON.parse throws). -/
def directCable {Ctx : Type} (routes : List (String × Route Ctx)) (ctx : Ctx) :
    Cable :=
  fun f m inp =>
    match (makeRouter routes ctx
        (.obj [("feature", .str f), ("method", .str m), ("input", inp)])).1 with
    | .error e => .error e
    | .ok s =>
      match JSONparse s with
      | some v => .ok v
      | none => .error (.thrown "SyntaxError: unexpected token in JSON")

/-! ### The HTTP cable (src/index.ts makeCable, src/src/http.ts httpCable) -/

/-- One `fetch(endpoint, opts)` request as the cable assembles it. -/
structure FetchRequest where
  url : String
  headers : List (String × String)
  method : String
  body : String

/-- A fetch response: `ok` flag, status text, and the JSON body
`response.json()` resolves to. -/
structure FetchResponse where
  ok : Bool
  statusText : String
  jsonBody : Value

/-- The platform fetch capability (external collaborator). -/
def Fetch : Type := FetchRequest → Except Err FetchResponse

/-- A constructed HTTP cable, instrumented with the trace of fetch
requests one invocation performs. -/
def HttpCableFn : Type := String → String → Value → Except Err Value × List FetchRequest

/-- Models `makeCable(endpoint, auth)` (identically `httpCable` in
src/src/http.ts): throws at construction when the endpoint is falsy
(absent or empty); the returned cable rejects before fetching when the
auth token is falsy (null or empty), otherwise POSTs the JSON envelope
with content-type and bearer-authorization headers, rejects on a
non-ok response naming the feature/method pair, and resolves to the
response JSON body. -/
def makeCable (fetchFn : Fetch) (endpoint : Option String)
    (token : Option String) : Except Err HttpCableFn :=
  match endpoint with
  | none => .error (.thrown "Backend endpoint is not set")
  | some ep =>
    if ep = "" then .error (.thrown "Backend endpoint is not set")
    else
      .ok (fun f m inp =>
        if token = none ∨ token = some "" then
          (.error (.thrown "User not authenticated, cannot call cable without a token"), [])
        else
          let req : FetchRequest :=
            { url := ep
              headers := [("Content-Type", "application/json"),
                ("Authorization", "Bearer " ++ token.getD "")]
              method := "POST"
              body := JSONstringify
                (.obj [("feature", .str f), ("method", .str m), ("input", inp)]) }
          match fetchFn req with
          | .error e => (.error e, [req])
          | .ok resp =>
            if resp.ok then (.ok resp.jsonBody, [req])
            else
              (.error (.thrown ("Failed to call " ++ f ++ "." ++ m ++ ": "
                ++ resp.statusText)), [req]))

/-- src/src/http.ts httpCable: textually the same construction as
makeCable. -/
def httpCable (fetchFn : Fetch) (endpoint : Option String)
    (token : Option String) : Except Err HttpCableFn :=
  makeCable fetchFn endpoint token

/-! ### Concrete fixtures (the test suite's missions feature, reduced) -/

/-- Schema accepting exactly an object with a string title field. -/
def titleSchema : Schema := fun v =>
  match v with
  | .obj [("title", .str _)] => .ok v
  | _ => .error "Failed parsing: expected title object"

/-- Schema accepting exactly a mission object with id, title and
completed fields. -/
def missionSchema : Schema := fun v =>
  match v with
  | .obj [("id", .num _), ("title", .str _), ("completed", .bool _)] => .ok v
  | _ => .error "Failed parsing: expected mission object"

/-- The missions feature with its create method. -/
def missionsFeature : FeatureDef :=
  feature "missions" [("create", (transform titleSchema).«to» missionSchema)]

/-- The create method implementation: builds the mission object for a
title argument. -/
def createImplFn : Value → Except Err Value := fun v =>
  match v with
  | .obj [("title", .str t)] =>
    .ok (.obj [("id", .num 1), ("title", .str t), ("completed", .bool false)])
  | _ => .error (.thrown "bad input")

/-- The missions implementation factory over a Nat context. -/
def missionsImpl : Nat → Impl := fun _ => [("create", createImplFn)]

/-- The missions route. -/
def missionsRoute : Route Nat := makeRoute missionsFeature missionsImpl

/-- A sample valid create argument. -/
def argSample : Value := .obj [("title", .str "Explore")]

/-- The mission object the sample implementation returns for
`argSample`. -/
def resSample : Value :=
  .obj [("id", .num 1), ("title", .str "Explore"), ("completed", .bool false)]

/-- A fetch stub that always fails (the network is never reached in the
scenarios proved here). -/
def fetchStub : Fetch := fun _ => .error (.thrown "network unreachable")

/-- The cable constructed by makeCable over the stub fetch, endpoint
"e" and no token. -/
def cableNoToken : HttpCableFn :=
  match makeCable fetchStub (some "e") none with
  | .ok c => c
  | .error _ => fun _ _ _ => (.error (.thrown "unreachable"), [])

/-! ### JSON round-trip -/

theorem charDig_digChar (d : Nat) (h : d < 10) : charDig (digChar d) = d := by
  interval_cases d <;> rfl

theorem digChar_isDigit (d : Nat) (h : d < 10) : (digChar d).isDigit = true := by
  interval_cases d <;> rfl

theorem natCharsAux_eq (fuel n : Nat) (h : n ≤ fuel) :
    natCharsAux fuel n = (Nat.digits 10 n).map digChar := by
  induction fuel generalizing n with
  | zero =>
    interval_cases n
    simp [natCharsAux]
  | succ f ih =>
    cases n with
    | zero => simp [natCharsAux]
    | succ m =>
      have hdiv : (m + 1) / 10 ≤ f := by omega
      rw [Nat.digits_def' (by norm_num : (1 : Nat) < 10) (Nat.succ_pos m)]
      simp only [List.map_cons]
      show digChar ((m + 1) % 10) :: natCharsAux f ((m + 1) / 10)
        = digChar ((m + 1) % 10) :: (Nat.digits 10 ((m + 1) / 10)).map digChar
      rw [ih _ hdiv]

theorem natChars_eq (n : Nat) :
    natChars n
      = if n = 0 then ['0'] else ((Nat.digits 10 n).map digChar).reverse := by
  unfold natChars
  by_cases h : n = 0
  · simp [h]
  · rw [if_neg h, if_neg h, natCharsAux_eq n n le_rfl]

theorem natChars_digits (n : Nat) : ∀ c ∈ natChars n, c.isDigit = true := by
  intro c hc
  rw [natChars_eq] at hc
  split at hc
  · simp only [List.mem_singleton] at hc
    subst hc
    decide
  · simp only [List.mem_reverse, List.mem_map] at hc
    obtain ⟨d, hd, rfl⟩ := hc
    exact digChar_isDigit d (Nat.digits_lt_base (by norm_num) hd)

theorem natChars_ne_nil (n : Nat) : natChars n ≠ [] := by
  rw [natChars_eq]
  split
  · simp
  · next h =>
    simp only [ne_eq, List.reverse_eq_nil_iff, List.map_eq_nil_iff]
    exact Nat.digits_ne_nil_iff_ne_zero.mpr h

theorem natChars_decode (n : Nat) :
    Nat.ofDigits 10 (((natChars n).map charDig).reverse) = n := by
  rw [natChars_eq]
  split
  · subst n
    simp [charDig, Nat.ofDigits]
  · rw [List.map_reverse, List.reverse_reverse, List.map_map]
    have hmap : (Nat.digits 10 n).map (charDig ∘ digChar)
        = (Nat.digits 10 n).map id :=
      List.map_congr_left fun d hd =>
        charDig_digChar d (Nat.digits_lt_base (by norm_num) hd)
    rw [hmap, List.map_id, Nat.ofDigits_digits]

theorem takeWhileDigits_append (l r : List Char)
    (hl : ∀ c ∈ l, c.isDigit = true) (hr : headNotDigit r) :
    (l ++ r).takeWhile Char.isDigit = l ∧
      (l ++ r).dropWhile Char.isDigit = r := by
  induction l with
  | nil =>
    simp only [List.nil_append]
    cases r with
    | nil => simp
    | cons c cs =>
      simp only [headNotDigit] at hr
      simp [List.takeWhile_cons, List.dropWhile_cons, hr]
  | cons c cs ih =>
    have hc : c.isDigit = true := hl c (List.mem_cons_self c cs)
    have ih2 := ih fun x hx => hl x (List.mem_cons_of_mem c hx)
    simp [List.takeWhile_cons, List.dropWhile_cons, hc, ih2.1, ih2.2]

theorem pNat_spec (n : Nat) (rest : List Char) (hr : headNotDigit rest) :
    pNat (natChars n ++ rest) = some (n, rest) := by
  have h := takeWhileDigits_append (natChars n) rest (natChars_digits n) hr
  unfold pNat
  rw [h.1, h.2]
  rcases hnc : natChars n with _ | ⟨d, ds⟩
  · exact absurd hnc (natChars_ne_nil n)
  · have hdec := natChars_decode n
    rw [hnc] at hdec
    exact congrArg (fun k => some (k, rest)) hdec

theorem pStrAux_esc (s rest : List Char) :
    pStrAux (escChars s ++ '"' :: rest) = some (s, rest) := by
  induction s with
  | nil =>
    show pStrAux ('"' :: rest) = some ([], rest)
    conv_lhs => unfold pStrAux
    rw [if_neg (by decide : ¬('"' : Char) = '\\'), if_pos rfl]
  | cons c cs ih =>
    by_cases hc : c = '"' ∨ c = '\\'
    · have he : escChars (c :: cs) ++ '"' :: rest
          = '\\' :: c :: (escChars cs ++ '"' :: rest) := by
        simp [escChars, escChar, hc]
      rw [he]
      conv_lhs => unfold pStrAux
      rw [if_pos rfl]
      show (pStrAux (escChars cs ++ '"' :: rest)).map (fun p => (c :: p.1, p.2))
        = some (c :: cs, rest)
      rw [ih]
      rfl
    · push_neg at hc
      have he : escChars (c :: cs) ++ '"' :: rest
          = c :: (escChars cs ++ '"' :: rest) := by
        simp [escChars, escChar, hc.1, hc.2]
      rw [he]
      conv_lhs => unfold pStrAux
      rw [if_neg hc.2, if_neg hc.1, ih]
      rfl

theorem pStr_esc (k : String) (rest : List Char) :
    pStr (escChars k.data ++ '"' :: rest) = some (k, rest) := by
  simp [pStr, pStrAux_esc]

theorem isDigit_notSpecial (c : Char) (h : c.isDigit = true) :
    c ≠ 'n' ∧ c ≠ 't' ∧ c ≠ 'f' ∧ c ≠ '"' ∧ c ≠ '[' ∧ c ≠ '\x7b' ∧ c ≠ '-'
      ∧ c ≠ ']' ∧ c ≠ '\x7d' := by
  refine ⟨?_, ?_, ?_, ?_, ?_, ?_, ?_, ?_, ?_⟩ <;>
    (intro he; subst he; exact absurd h (by decide))

theorem pV_digitHead (fuel : Nat) (c : Char) (cs : List Char)
    (hc : c.isDigit = true) :
    pV (fuel + 1) (c :: cs)
      = (pNat (c :: cs)).map fun p => (.num ((p.1 : Int)), p.2) := by
  obtain ⟨h1, h2, h3, h4, h5, h6, h7, _, _⟩ := isDigit_notSpecial c hc
  simp [pV, h1, h2, h3, h4, h5, h6, h7, hc]

theorem strV_head (v : Value) :
    ∃ c t, strV v = c :: t ∧ c ≠ ']' ∧ c ≠ '\x7d' := by
  cases v with
  | null => exact ⟨'n', ['u', 'l', 'l'], rfl, by decide, by decide⟩
  | bool b =>
    cases b with
    | false => exact ⟨'f', ['a', 'l', 's', 'e'], rfl, by decide, by decide⟩
    | true => exact ⟨'t', ['r', 'u', 'e'], rfl, by decide, by decide⟩
  | num n =>
    have hv : strV (.num n) = numChars n := rfl
    rw [hv]
    unfold numChars
    split
    · exact ⟨'-', natChars n.natAbs, rfl, by decide, by decide⟩
    · rcases hnc : natChars n.toNat with _ | ⟨d, ds⟩
      · exact absurd hnc (natChars_ne_nil _)
      · have hd : d.isDigit = true :=
          natChars_digits n.toNat d (hnc ▸ List.mem_cons_self d ds)
        obtain ⟨_, _, _, _, _, _, _, h8, h9⟩ := isDigit_notSpecial d hd
        exact ⟨d, ds, rfl, h8, h9⟩
  | str s => exact ⟨'"', escChars s.data ++ ['"'], rfl, by decide, by decide⟩
  | arr vs => exact ⟨'[', strElems vs ++ [']'], rfl, by decide, by decide⟩
  | obj fs => exact ⟨'\x7b', strFields fs ++ ['\x7d'], rfl, by decide, by decide⟩

theorem strV_length_pos (v : Value) : 0 < (strV v).length := by
  obtain ⟨c, t, hct, _, _⟩ := strV_head v
  simp [hct]

theorem headNotDigit_cons (c : Char) (rest : List Char)
    (h : c.isDigit = false) : headNotDigit (c :: rest) := h

/-- The fueled parser inverts the stringifier: values followed by a
non-digit delimiter, non-empty element lists followed by the closing
bracket, and non-empty field lists followed by the closing brace. -/
theorem rt_main (fuel : Nat) :
    (∀ v rest, (strV v).length < fuel → headNotDigit rest →
      pV fuel (strV v ++ rest) = some (v, rest)) ∧
    (∀ vs rest, vs ≠ [] → (strElems vs).length + 1 < fuel →
      pElems fuel (strElems vs ++ ']' :: rest) = some (vs, rest)) ∧
    (∀ fs rest, fs ≠ [] → (strFields fs).length + 1 < fuel →
      pFields fuel (strFields fs ++ '\x7d' :: rest) = some (fs, rest)) := by
  induction fuel with
  | zero =>
    exact ⟨fun v rest h _ => absurd h (Nat.not_lt_zero _),
      fun vs rest _ h => absurd h (Nat.not_lt_zero _),
      fun fs rest _ h => absurd h (Nat.not_lt_zero _)⟩
  | succ F IH =>
    obtain ⟨IH1, IH2, IH3⟩ := IH
    refine ⟨?_, ?_, ?_⟩
    · intro v rest hlen hrest
      cases v with
      | null => exact rfl
      | bool b => cases b with
        | true => exact rfl
        | false => exact rfl
      | num n =>
        by_cases hneg : n < 0
        · have h1 : strV (.num n) ++ rest = '-' :: (natChars n.natAbs ++ rest) := by
            show numChars n ++ rest = _
            rw [numChars, if_pos hneg]
            rfl
          rw [h1]
          have h2 : pV (F + 1) ('-' :: (natChars n.natAbs ++ rest))
              = (match pNat (natChars n.natAbs ++ rest) with
                 | some (m, r) => some (.num (-(m : Int)), r)
                 | none => none) := rfl
          rw [h2, pNat_spec _ _ hrest]
          show some (Value.num (-((n.natAbs : Int))), rest)
            = some (Value.num n, rest)
          have h3 : -((n.natAbs : Int)) = n := by omega
          rw [h3]
        · have h1 : strV (.num n) ++ rest = natChars n.toNat ++ rest := by
            show numChars n ++ rest = _
            rw [numChars, if_neg hneg]
          rw [h1]
          rcases hnc : natChars n.toNat with _ | ⟨d, ds⟩
          · exact absurd hnc (natChars_ne_nil _)
          · have hd : d.isDigit = true :=
              natChars_digits _ d (hnc ▸ List.mem_cons_self d ds)
            show pV (F + 1) (d :: (ds ++ rest)) = some (.num n, rest)
            rw [pV_digitHead F d (ds ++ rest) hd]
            have h4 : pNat (d :: (ds ++ rest)) = some (n.toNat, rest) := by
              have h5 := pNat_spec n.toNat rest hrest
              rw [hnc] at h5
              exact h5
            rw [h4]
            show some (Value.num ((n.toNat : Int)), rest)
              = some (Value.num n, rest)
            have h6 : ((n.toNat : Int)) = n := by omega
            rw [h6]
      | str s =>
        have h1 : strV (.str s) ++ rest = '"' :: (escChars s.data ++ '"' :: rest) := by
          show ('"' :: escChars s.data ++ ['"']) ++ rest = _
          simp
        rw [h1]
        have h2 : pV (F + 1) ('"' :: (escChars s.data ++ '"' :: rest))
            = (pStr (escChars s.data ++ '"' :: rest)).map
                fun p => (.str p.1, p.2) := rfl
        rw [h2, pStr_esc]
        rfl
      | arr vs =>
        cases vs with
        | nil => exact rfl
        | cons v0 vs' =>
          obtain ⟨c, t, hct, hc1, _⟩ := strV_head v0
          have hL : (strV (.arr (v0 :: vs'))).length
              = (strElems (v0 :: vs')).length + 2 := by
            show ('[' :: strElems (v0 :: vs') ++ [']']).length = _
            simp
          have harr : strV (.arr (v0 :: vs')) ++ rest
              = '[' :: (strElems (v0 :: vs') ++ ']' :: rest) := by
            show ('[' :: strElems (v0 :: vs') ++ [']']) ++ rest = _
            simp
          rw [harr]
          have hstep : pV (F + 1) ('[' :: (strElems (v0 :: vs') ++ ']' :: rest))
              = (if (strElems (v0 :: vs') ++ ']' :: rest).head? = some ']'
                 then some (.arr [], (strElems (v0 :: vs') ++ ']' :: rest).tail)
                 else (pElems F (strElems (v0 :: vs') ++ ']' :: rest)).map
                   fun p => (.arr p.1, p.2)) := rfl
          rw [hstep]
          have hhead : (strElems (v0 :: vs') ++ ']' :: rest).head? ≠ some ']' := by
            cases vs' with
            | nil =>
              show (strV v0 ++ ']' :: rest).head? ≠ some ']'
              rw [hct]
              simp [hc1]
            | cons v1 vs'' =>
              show ((strV v0 ++ ',' :: strElems (v1 :: vs'')) ++ ']' :: rest).head?
                ≠ some ']'
              rw [hct]
              simp [hc1]
          rw [if_neg hhead, IH2 (v0 :: vs') rest (by simp) (by omega)]
          rfl
      | obj fs =>
        cases fs with
        | nil => exact rfl
        | cons f0 fs' =>
          obtain ⟨k, v0⟩ := f0
          have hL : (strV (.obj ((k, v0) :: fs'))).length
              = (strFields ((k, v0) :: fs')).length + 2 := by
            show ('\x7b' :: strFields ((k, v0) :: fs') ++ ['\x7d']).length = _
            simp
          have hobj : strV (.obj ((k, v0) :: fs')) ++ rest
              = '\x7b' :: (strFields ((k, v0) :: fs') ++ '\x7d' :: rest) := by
            show ('\x7b' :: strFields ((k, v0) :: fs') ++ ['\x7d']) ++ rest = _
            simp
          rw [hobj]
          have hstep : pV (F + 1)
                ('\x7b' :: (strFields ((k, v0) :: fs') ++ '\x7d' :: rest))
              = (if (strFields ((k, v0) :: fs') ++ '\x7d' :: rest).head?
                    = some '\x7d'
                 then some (.obj [],
                   (strFields ((k, v0) :: fs') ++ '\x7d' :: rest).tail)
                 else (pFields F (strFields ((k, v0) :: fs') ++ '\x7d' :: rest)).map
                   fun p => (.obj p.1, p.2)) := rfl
          rw [hstep]
          have hhead : (strFields ((k, v0) :: fs') ++ '\x7d' :: rest).head?
              ≠ some '\x7d' := by
            cases fs' with
            | nil =>
              show (('"' :: escChars k.data ++ '"' :: ':' :: strV v0)
                  ++ '\x7d' :: rest).head? ≠ some '\x7d'
              simp
            | cons f1 fs'' =>
              show ((('"' :: escChars k.data ++ '"' :: ':' :: strV v0)
                  ++ ',' :: strFields (f1 :: fs'')) ++ '\x7d' :: rest).head?
                ≠ some '\x7d'
              simp
          rw [if_neg hhead, IH3 ((k, v0) :: fs') rest (by simp) (by omega)]
          rfl
    · intro vs rest hne hlen
      cases vs with
      | nil => exact absurd rfl hne
      | cons v vs' =>
        cases vs' with
        | nil =>
          have hlenv : (strV v).length < F := by
            have h7 : (strElems [v]).length = (strV v).length := rfl
            omega
          show pElems (F + 1) (strV v ++ ']' :: rest) = some ([v], rest)
          have h2 : pElems (F + 1) (strV v ++ ']' :: rest)
              = (match pV F (strV v ++ ']' :: rest) with
                 | some (v1, ',' :: rest2) =>
                   (pElems F rest2).map fun p => (v1 :: p.1, p.2)
                 | some (v1, ']' :: rest2) => some ([v1], rest2)
                 | _ => none) := rfl
          rw [h2, IH1 v (']' :: rest) hlenv (headNotDigit_cons _ _ (by decide))]
          rfl
        | cons v1 vs'' =>
          have hLe : (strElems (v :: v1 :: vs'')).length
              = (strV v).length + ((strElems (v1 :: vs'')).length + 1) := by
            show (strV v ++ ',' :: strElems (v1 :: vs'')).length = _
            simp
          have hpos := strV_length_pos v
          show pElems (F + 1)
              ((strV v ++ ',' :: strElems (v1 :: vs'')) ++ ']' :: rest)
            = some (v :: v1 :: vs'', rest)
          have hre : (strV v ++ ',' :: strElems (v1 :: vs'')) ++ ']' :: rest
              = strV v ++ ',' :: (strElems (v1 :: vs'') ++ ']' :: rest) := by
            simp
          rw [hre]
          have h2 : pElems (F + 1)
                (strV v ++ ',' :: (strElems (v1 :: vs'') ++ ']' :: rest))
              = (match pV F (strV v ++ ',' :: (strElems (v1 :: vs'') ++ ']' :: rest)) with
                 | some (w, ',' :: rest2) =>
                   (pElems F rest2).map fun p => (w :: p.1, p.2)
                 | some (w, ']' :: rest2) => some ([w], rest2)
                 | _ => none) := rfl
          rw [h2, IH1 v (',' :: (strElems (v1 :: vs'') ++ ']' :: rest))
            (by omega) (headNotDigit_cons _ _ (by decide))]
          show (pElems F (strElems (v1 :: vs'') ++ ']' :: rest)).map
              (fun p => (v :: p.1, p.2)) = some (v :: v1 :: vs'', rest)
          rw [IH2 (v1 :: vs'') rest (by simp) (by omega)]
          rfl
    · intro fs rest hne hlen
      cases fs with
      | nil => exact absurd rfl hne
      | cons f0 fs' =>
        obtain ⟨k, v⟩ := f0
        cases fs' with
        | nil =>
          have hLf : (strFields [(k, v)]).length
              = (escChars k.data).length + 3 + (strV v).length := by
            show ('"' :: escChars k.data ++ '"' :: ':' :: strV v).length = _
            simp
            omega
          show pFields (F + 1)
              (('"' :: escChars k.data ++ '"' :: ':' :: strV v) ++ '\x7d' :: rest)
            = some ([(k, v)], rest)
          have hre : ('"' :: escChars k.data ++ '"' :: ':' :: strV v) ++ '\x7d' :: rest
              = '"' :: (escChars k.data ++ '"' :: (':' :: (strV v ++ '\x7d' :: rest))) := by
            simp
          rw [hre]
          have h2 : pFields (F + 1)
                ('"' :: (escChars k.data ++ '"' :: (':' :: (strV v ++ '\x7d' :: rest))))
              = (match pStr (escChars k.data ++ '"' :: (':' :: (strV v ++ '\x7d' :: rest))) with
                 | some (k1, ':' :: cs2) =>
                   match pV F cs2 with
                   | some (w, ',' :: cs3) =>
                     (pFields F cs3).map fun p => ((k1, w) :: p.1, p.2)
                   | some (w, '\x7d' :: cs3) => some ([(k1, w)], cs3)
                   | _ => none
                 | _ => none) := rfl
          rw [h2, pStr_esc]
          show (match pV F (strV v ++ '\x7d' :: rest) with
                | some (w, ',' :: cs3) =>
                  (pFields F cs3).map fun p => ((k, w) :: p.1, p.2)
                | some (w, '\x7d' :: cs3) => some ([(k, w)], cs3)
                | _ => none) = some ([(k, v)], rest)
          rw [IH1 v ('\x7d' :: rest) (by omega) (headNotDigit_cons _ _ (by decide))]
          rfl
        | cons f1 fs'' =>
          have hLf : (strFields ((k, v) :: f1 :: fs'')).length
              = (escChars k.data).length + 3 + (strV v).length
                + ((strFields (f1 :: fs'')).length + 1) := by
            show ((('"' :: escChars k.data ++ '"' :: ':' :: strV v))
                ++ ',' :: strFields (f1 :: fs'')).length = _
            simp
            omega
          have hpos := strV_length_pos v
          show pFields (F + 1)
              ((('"' :: escChars k.data ++ '"' :: ':' :: strV v)
                ++ ',' :: strFields (f1 :: fs'')) ++ '\x7d' :: rest)
            = some ((k, v) :: f1 :: fs'', rest)
          have hre : (('"' :: escChars k.data ++ '"' :: ':' :: strV v)
                ++ ',' :: strFields (f1 :: fs'')) ++ '\x7d' :: rest
              = '"' :: (escChars k.data ++ '"' :: (':' :: (strV v
                ++ ',' :: (strFields (f1 :: fs'') ++ '\x7d' :: rest)))) := by
            simp
          rw [hre]
          have h2 : pFields (F + 1)
                ('"' :: (escChars k.data ++ '"' :: (':' :: (strV v
                  ++ ',' :: (strFields (f1 :: fs'') ++ '\x7d' :: rest)))))
              = (match pStr (escChars k.data ++ '"' :: (':' :: (strV v
                    ++ ',' :: (strFields (f1 :: fs'') ++ '\x7d' :: rest)))) with
                 | some (k1, ':' :: cs2) =>
                   match pV F cs2 with
                   | some (w, ',' :: cs3) =>
                     (pFields F cs3).map fun p => ((k1, w) :: p.1, p.2)
                   | some (w, '\x7d' :: cs3) => some ([(k1, w)], cs3)
                   | _ => none
                 | _ => none) := rfl
          rw [h2, pStr_esc]
          show (match pV F (strV v ++ ',' :: (strFields (f1 :: fs'') ++ '\x7d' :: rest)) with
                | some (w, ',' :: cs3) =>
                  (pFields F cs3).map fun p => ((k, w) :: p.1, p.2)
                | some (w, '\x7d' :: cs3) => some ([(k, w)], cs3)
                | _ => none) = some ((k, v) :: f1 :: fs'', rest)
          rw [IH1 v (',' :: (strFields (f1 :: fs'') ++ '\x7d' :: rest))
            (by omega) (headNotDigit_cons _ _ (by decide))]
          show (pFields F (strFields (f1 :: fs'') ++ '\x7d' :: rest)).map
              (fun p => ((k, v) :: p.1, p.2)) = some ((k, v) :: f1 :: fs'', rest)
          rw [IH3 (f1 :: fs'') rest (by simp) (by omega)]
          rfl

/-- JSON.parse inverts JSON.stringify on every value. -/
theorem json_roundtrip (v : Value) : JSONparse (JSONstringify v) = some v := by
  have h := (rt_main ((strV v).length + 1)).1 v [] (by omega) trivial
  rw [List.append_nil] at h
  show (match pV ((strV v).length + 1) (strV v) with
        | some (v1, []) => some v1
        | _ => none) = some v
  rw [h]

/-! ### Claim theorems -/

/-- C2: fail-fast at the Remote Proxy. For every Feature, declared
method, Cable and argument: if the argument fails input validation the
proxy call rejects with that validation error and the Cable invocation
trace is empty; if validation succeeds the Cable is invoked exactly
once, with the feature name, the method name and the validated input. -/
theorem failFastOnBadInput (F : FeatureDef) (cable : Cable) (m : String)
    (arg : Value) (c : Callable) (hm : F.schema.lookup m = some c) :
    (∀ msg, c.input arg = .error msg →
      makeRemote F cable m arg = (.error (.validation msg), [])) ∧
    (∀ p, c.input arg = .ok p →
      (makeRemote F cable m arg).2 = [⟨F.name, m, p⟩]) := by
  constructor
  · intro msg hmsg
    simp [makeRemote, hm, parseOrThrow, hmsg]
  · intro p hp
    cases hc : cable F.name m p with
    | error e => simp [makeRemote, hm, parseOrThrow, hp, hc]
    | ok r => simp [makeRemote, hm, parseOrThrow, hp, hc]

/-- C2 witness: at the concrete missions feature, a null argument is
rejected without invoking the cable, and the sample argument reaches the
cable exactly once in validated form. -/
theorem failFastOnBadInput_witness :
    makeRemote missionsFeature (fun _ _ _ => .ok .null) "create" .null
        = (.error (.validation "Failed parsing: expected title object"), []) ∧
    (makeRemote missionsFeature (fun _ _ _ => .ok .null) "create" argSample).2
        = [⟨"missions", "create", argSample⟩] :=
  ⟨(failFastOnBadInput missionsFeature (fun _ _ _ => .ok .null) "create"
      .null ((transform titleSchema).«to» missionSchema) rfl).1 _ rfl,
   (failFastOnBadInput missionsFeature (fun _ _ _ => .ok .null) "create"
      argSample ((transform titleSchema).«to» missionSchema) rfl).2 _ rfl⟩

/-- C4: an undeclared method name at the Route rejects with the thrown
Not Found error naming the method, with zero implementation-factory
invocations, for every context, argument and factory; the message
contains the method name. -/
theorem unknownMethodAtRoute {Ctx : Type} (F : FeatureDef)
    (implFn : Ctx → Impl) (ctx : Ctx) (m : String) (arg : Value)
    (hm : F.schema.lookup m = none) :
    (makeRoute F implFn).call ctx m arg
        = (.error (.thrown ("Method " ++ m ++ " not found")), 0) ∧
    ∃ pre post, "Method " ++ m ++ " not found" = pre ++ m ++ post :=
  ⟨by simp [makeRoute, hm], ⟨"Method ", " not found", rfl⟩⟩

/-- C4 witness: the missions route rejects the undeclared method
"missing" with the Not Found error and no factory invocation. -/
theorem unknownMethodAtRoute_witness :
    missionsRoute.call 0 "missing" .null
        = (.error (.thrown ("Method " ++ "missing" ++ " not found")), 0) :=
  (unknownMethodAtRoute missionsFeature missionsImpl 0 "missing" .null rfl).1

/-- C6: the implementation factory runs on every dispatch. For a
declared method: when the argument passes input validation the factory
is applied exactly once during the call — whatever the implementation
lookup, run and output validation then do — and when input validation
fails the factory is never applied. -/
theorem implFactoryRunsEveryCall {Ctx : Type} (F : FeatureDef)
    (implFn : Ctx → Impl) (ctx : Ctx) (m : String) (arg : Value)
    (c : Callable) (hm : F.schema.lookup m = some c) :
    (∀ p, c.input arg = .ok p → ((makeRoute F implFn).call ctx m arg).2 = 1) ∧
    (∀ msg, c.input arg = .error msg →
      ((makeRoute F implFn).call ctx m arg).2 = 0) := by
  constructor
  · intro p hp
    cases hfn : (implFn ctx).lookup m with
    | none => simp [makeRoute, hm, parseOrThrow, hp, hfn]
    | some fn =>
      cases hr : fn p with
      | error e => simp [makeRoute, hm, parseOrThrow, hp, hfn, hr]
      | ok r =>
        cases ho : c.output r with
        | error e2 => simp [makeRoute, hm, parseOrThrow, hp, hfn, hr, ho]
        | ok validated => simp [makeRoute, hm, parseOrThrow, hp, hfn, hr, ho]
  · intro msg hmsg
    simp [makeRoute, hm, parseOrThrow, hmsg]

/-- C6 witness: the missions route applies the factory exactly once on
the valid sample argument and never on an invalid one. -/
theorem implFactoryRunsEveryCall_witness :
    (missionsRoute.call 0 "create" argSample).2 = 1 ∧
    (missionsRoute.call 0 "create" .null).2 = 0 :=
  ⟨(implFactoryRunsEveryCall missionsFeature missionsImpl 0 "create" argSample
      ((transform titleSchema).«to» missionSchema) rfl).1 argSample rfl,
   (implFactoryRunsEveryCall missionsFeature missionsImpl 0 "create" .null
      ((transform titleSchema).«to» missionSchema) rfl).2
      "Failed parsing: expected title object" rfl⟩

/-- C7: Router delegation is transparent. When the payload envelope
validates and its feature names a registered Route, the Router returns
exactly that Route's call on the envelope's method and input — result
and failure alike, with no wrapping or transformation. -/
theorem routerDelegationTransparent {Ctx : Type}
    (routes : List (String × Route Ctx)) (ctx : Ctx) (payload : Value)
    (f m : String) (inp : Value) (route : Route Ctx)
    (hp : parseCableInput payload = .ok (f, m, inp))
    (hr : routes.lookup f = some route) :
    makeRouter routes ctx payload = route.call ctx m inp := by
  simp [makeRouter, hp, hr]

/-- C7 witness: a router over the missions route delegates a concrete
envelope to the route's own call verbatim. -/
theorem routerDelegationTransparent_witness :
    makeRouter [("missions", missionsRoute)] 0
        (.obj [("feature", .str "missions"), ("method", .str "create"),
          ("input", argSample)])
      = missionsRoute.call 0 "create" argSample :=
  routerDelegationTransparent [("missions", missionsRoute)] 0
    (.obj [("feature", .str "missions"), ("method", .str "create"),
      ("input", argSample)])
    "missions" "create" argSample missionsRoute rfl rfl

/-- C9 counterexample: the feature constructor accepts the empty name
unchanged, so the claim that every constructible Feature has a non-empty
name fails at the concrete input `feature "" []`. -/
theorem featureEmptyName_cex :
    ¬ ((feature "" ([] : List (String × Callable))).name ≠ "") :=
  fun h => h rfl

/-- C9 amended: `feature(name, methodSchemas)` preserves the supplied
name verbatim, so the constructed Feature's name is non-empty exactly
when the supplied name is; the constructor performs no validation. -/
theorem featureNamePreservation (name : String)
    (schema : List (String × Callable)) :
    (feature name schema).name = name ∧
      ((feature name schema).name ≠ "" ↔ name ≠ "") :=
  ⟨rfl, Iff.rfl⟩

/-- C10: accessing any undeclared method name on the Remote Proxy still
yields a callable method (the proxy model is total in the method name);
invoking it rejects with the TypeError from destructuring the missing
Callable — not a thrown "method not declared" error — and the Cable is
never invoked. -/
theorem undeclaredMethodProxy (F : FeatureDef) (cable : Cable) (m : String)
    (arg : Value) (hm : F.schema.lookup m = none) :
    makeRemote F cable m arg
        = (.error (.typeError "Cannot destructure property input of undefined"),
           []) ∧
    ∀ msg, (makeRemote F cable m arg).1 ≠ .error (.thrown msg) := by
  have h : makeRemote F cable m arg
      = (.error (.typeError "Cannot destructure property input of undefined"),
         []) := by
    simp [makeRemote, hm]
  refine ⟨h, fun msg hcontra => ?_⟩
  rw [h] at hcontra
  simp at hcontra

/-- C10 witness: invoking the undeclared "missing" method on the proxy
over the missions feature rejects with the destructuring TypeError and
an empty cable trace. -/
theorem undeclaredMethodProxy_witness :
    makeRemote missionsFeature (fun _ _ _ => .ok .null) "missing" .null
      = (.error (.typeError "Cannot destructure property input of undefined"),
         []) :=
  (undeclaredMethodProxy missionsFeature (fun _ _ _ => .ok .null) "missing"
    .null rfl).1

theorem parseCableInput_error_validation (payload : Value) (e : Err)
    (he : parseCableInput payload = .error e) : ∃ msg, e = .validation msg := by
  cases payload with
  | obj fields =>
    unfold parseCableInput at he
    split at he <;> try split at he
    all_goals first
      | exact Except.noConfusion he
      | (injection he with h
         exact ⟨_, h.symm⟩)
  | null =>
    injection he with h
    exact ⟨_, h.symm⟩
  | bool b =>
    injection he with h
    exact ⟨_, h.symm⟩
  | num n =>
    injection he with h
    exact ⟨_, h.symm⟩
  | str s =>
    injection he with h
    exact ⟨_, h.symm⟩
  | arr vs =>
    injection he with h
    exact ⟨_, h.symm⟩

/-- C5: Router envelope validation and unknown feature. A payload that
fails the fixed Envelope Schema makes the Router reject with that
validation error, uniformly in the route mapping (so before any Route
is consulted) and with zero factory invocations; a validating envelope
whose feature is not registered rejects with the thrown Not Found error
naming the feature, again with zero factory invocations. -/
theorem routerEnvelopeValidation {Ctx : Type} (ctx : Ctx) (payload : Value) :
    (∀ e (routes : List (String × Route Ctx)),
      parseCableInput payload = .error e →
      (∃ msg, e = .validation msg) ∧
        makeRouter routes ctx payload = (.error e, 0)) ∧
    (∀ f m inp (routes : List (String × Route Ctx)),
      parseCableInput payload = .ok (f, m, inp) → routes.lookup f = none →
      makeRouter routes ctx payload
        = (.error (.thrown ("Feature " ++ f ++ " not found")), 0)) := by
  constructor
  · intro e routes he
    exact ⟨parseCableInput_error_validation payload e he,
      by simp [makeRouter, he]⟩
  · intro f m inp routes hp hr
    simp [makeRouter, hp, hr]

/-- C5 witness: the router over the missions route rejects the
non-envelope payload null with a validation error for every route
mapping supplied, and rejects an envelope naming the unregistered
feature "missing" with the Not Found error. -/
theorem routerEnvelopeValidation_witness :
    ((∃ msg, (Err.validation "Failed parsing: expected object")
        = .validation msg) ∧
      makeRouter [("missions", missionsRoute)] 0 .null
        = (.error (.validation "Failed parsing: expected object"), 0)) ∧
    makeRouter [("missions", missionsRoute)] 0
        (.obj [("feature", .str "missing"), ("method", .str "x"),
          ("input", .obj [])])
      = (.error (.thrown ("Feature " ++ "missing" ++ " not found")), 0) :=
  ⟨(routerEnvelopeValidation 0 .null).1
      (.validation "Failed parsing: expected object")
      [("missions", missionsRoute)] rfl,
   (routerEnvelopeValidation 0 _).2 "missing" "x" (.obj [])
      [("missions", missionsRoute)] rfl rfl⟩

/-- C8: Cable construction and authentication failures. makeCable fails
at construction with the configuration error exactly when the endpoint
is absent or empty; a successfully constructed cable invoked with no
auth token rejects with the authentication error and performs no fetch
(its request trace is empty). -/
theorem cableConstructionAndAuth (fetchFn : Fetch) :
    (∀ token, makeCable fetchFn none token
        = .error (.thrown "Backend endpoint is not set")) ∧
    (∀ token, makeCable fetchFn (some "") token
        = .error (.thrown "Backend endpoint is not set")) ∧
    (∀ ep cable, makeCable fetchFn (some ep) none = .ok cable →
      ∀ f m inp, cable f m inp
        = (.error (.thrown
            "User not authenticated, cannot call cable without a token"),
           [])) := by
  refine ⟨fun token => rfl, fun token => by simp [makeCable], ?_⟩
  intro ep cable hok f m inp
  unfold makeCable at hok
  split at hok
  · exact absurd hok (by simp)
  · split at hok
    · exact absurd hok (by simp)
    · injection hok with hcable
      rw [← hcable]
      simp

/-- C8 witness: with a stub fetch, construction with a missing endpoint
fails with the configuration error, and the cable built over endpoint
"e" with a null token rejects with the authentication error and an
empty fetch trace. -/
theorem cableConstructionAndAuth_witness :
    makeCable fetchStub none (some "tok")
        = .error (.thrown "Backend endpoint is not set") ∧
    cableNoToken "missions" "create" argSample
        = (.error (.thrown
            "User not authenticated, cannot call cable without a token"),
           []) :=
  ⟨(cableConstructionAndAuth fetchStub).1 (some "tok"),
   (cableConstructionAndAuth fetchStub).2.2 "e" cableNoToken rfl
     "missions" "create" argSample⟩

/-- C3: the serialization contract of Route.call. Whenever a dispatch
resolves, its value is exactly the JSON text of the schema-validated
return value of the implementation — no wrapper object — and JSON.parse
of that text deep-equals the validated return value. -/
theorem serializationContract {Ctx : Type} (F : FeatureDef)
    (implFn : Ctx → Impl) (ctx : Ctx) (m : String) (arg : Value)
    (s : String) (cnt : Nat)
    (h : (makeRoute F implFn).call ctx m arg = (.ok s, cnt)) :
    ∃ c fn parsedInput res validated,
      F.schema.lookup m = some c ∧
      c.input arg = .ok parsedInput ∧
      (implFn ctx).lookup m = some fn ∧
      fn parsedInput = .ok res ∧
      c.output res = .ok validated ∧
      s = JSONstringify validated ∧
      JSONparse s = some validated := by
  cases hm : F.schema.lookup m with
  | none => simp [makeRoute, hm] at h
  | some c =>
    cases hin : c.input arg with
    | error msg => simp [makeRoute, hm, parseOrThrow, hin] at h
    | ok p =>
      cases hfn : (implFn ctx).lookup m with
      | none => simp [makeRoute, hm, parseOrThrow, hin, hfn] at h
      | some fn =>
        cases hres : fn p with
        | error e => simp [makeRoute, hm, parseOrThrow, hin, hfn, hres] at h
        | ok res =>
          cases hout : c.output res with
          | error e2 =>
            simp [makeRoute, hm, parseOrThrow, hin, hfn, hres, hout] at h
          | ok validated =>
            simp only [makeRoute, hm, parseOrThrow, hin, hfn, hres, hout] at h
            have hs : s = JSONstringify validated := by
              have hfst := congrArg Prod.fst h
              simp at hfst
              exact hfst.symm
            exact ⟨c, fn, p, res, validated, rfl, hin, rfl, hres, hout, hs,
              by rw [hs]; exact json_roundtrip validated⟩

/-- C3 witness: the missions route's successful dispatch of the sample
argument yields the serialized mission object, whose parse recovers it. -/
theorem serializationContract_witness :
    ∃ c fn parsedInput res validated,
      missionsFeature.schema.lookup "create" = some c ∧
      c.input argSample = .ok parsedInput ∧
      (missionsImpl 0).lookup "create" = some fn ∧
      fn parsedInput = .ok res ∧
      c.output res = .ok validated ∧
      JSONstringify resSample = JSONstringify validated ∧
      JSONparse (JSONstringify resSample) = some validated :=
  serializationContract missionsFeature missionsImpl 0 "create" argSample
    (JSONstringify resSample) 1 rfl

/-- C1: round-trip validity. For a declared method whose schemas accept
the argument and the implementation result unchanged, the Remote Proxy
call through a cable wired directly to a Router over the feature's
Route resolves to a value deep-equal to the implementation's validated
return value. -/
theorem roundTripValidity {Ctx : Type} (F : FeatureDef) (m : String)
    (c : Callable) (implFn : Ctx → Impl) (ctx : Ctx) (arg res : Value)
    (fn : Value → Except Err Value)
    (hm : F.schema.lookup m = some c)
    (hIn : Validates c.input arg)
    (hfn : (implFn ctx).lookup m = some fn)
    (hImpl : fn arg = .ok res)
    (hOut : Validates c.output res) :
    (makeRemote F (directCable [(F.name, makeRoute F implFn)] ctx) m arg).1
      = .ok res := by
  have hIn' : c.input arg = .ok arg := hIn
  have hOut' : c.output res = .ok res := hOut
  have hroute : (makeRoute F implFn).call ctx m arg
      = (.ok (JSONstringify res), 1) := by
    simp [makeRoute, hm, parseOrThrow, hIn', hfn, hImpl, hOut']
  have hpci : parseCableInput
      (.obj [("feature", .str F.name), ("method", .str m), ("input", arg)])
      = .ok (F.name, m, arg) := rfl
  have hlookup : List.lookup F.name [(F.name, makeRoute F implFn)]
      = some (makeRoute F implFn) := by
    simp [List.lookup]
  have hrouter : makeRouter [(F.name, makeRoute F implFn)] ctx
      (.obj [("feature", .str F.name), ("method", .str m), ("input", arg)])
      = (.ok (JSONstringify res), 1) := by
    simp [makeRouter, hpci, hlookup, hroute]
  have hcable : directCable [(F.name, makeRoute F implFn)] ctx F.name m arg
      = .ok res := by
    simp [directCable, hrouter, json_roundtrip]
  simp [makeRemote, hm, parseOrThrow, hIn', hcable, hOut']

/-- C1 witness: through the directly wired cable, the proxy's create
call on the sample argument resolves to the implementation's validated
mission object. -/
theorem roundTripValidity_witness :
    (makeRemote missionsFeature
        (directCable [("missions", makeRoute missionsFeature missionsImpl)] 0)
        "create" argSample).1
      = .ok resSample :=
  roundTripValidity missionsFeature "create"
    ((transform titleSchema).«to» missionSchema) missionsImpl 0 argSample
    resSample createImplFn rfl rfl rfl rfl rfl

end Telegraphy
